import Mathlib

/-!
Shallow embedding of `load_confounds.py` (SIMEXP/fmri_loader): selection and
assembly of nuisance-regressor columns from an fMRIPrep confounds table.

Pandas DataFrames are modelled as ordered lists of named columns whose cells
are `Option ℚ` (`none` models a missing value / NaN).  The external PCA
capability (`sklearn.decomposition.PCA.fit_transform`) and the external table
reader (`pd.read_csv`) are parameters of the embedded functions.  Python
`raise ValueError(...)` is modelled by `Except Err` with one constructor per
distinct error message, carrying the named entity the message reports.
-/

/-- A cell of a confounds table: `none` models a missing value (NaN). -/
abbrev Cell := Option ℚ

/-- A pandas DataFrame: ordered named columns of cells. -/
structure DF where
  cols : List (String × List Cell)
deriving DecidableEq, Repr

/-- Python `pd.DataFrame()`: the empty frame. -/
def DF.empty : DF := ⟨[]⟩

/-- Python `df.columns`: the ordered list of column names. -/
def DF.columns (df : DF) : List String := df.cols.map (·.1)

/-- Python `df[names]`: column selection, keeping the order of `names`
(callers guarantee presence via `_check_params` / `_find_confounds`). -/
def DF.select (df : DF) (names : List String) : DF :=
  ⟨names.filterMap fun n => (df.cols.find? fun c => c.1 == n).map fun c => (n, c.2)⟩

/-- Python `pd.concat([a, b], axis=1)`: column-wise concatenation. -/
def DF.concat (a b : DF) : DF := ⟨a.cols ++ b.cols⟩

/-- Number of rows (row count of the first column; 0 for an empty frame). -/
def DF.nrows (df : DF) : Nat :=
  match df.cols with
  | [] => 0
  | c :: _ => c.2.length

/-- Whether row `i` has no missing value in any column. -/
def DF.rowComplete (df : DF) (i : Nat) : Bool :=
  df.cols.all fun c => (c.2.getD i none).isSome

/-- Python `df.dropna()`: keep only the rows with no missing value. -/
def DF.dropna (df : DF) : DF :=
  let keep := (List.range df.nrows).filter df.rowComplete
  ⟨df.cols.map fun c => (c.1, keep.map fun i => c.2.getD i none)⟩

/-- Python `df.values`: the row-major matrix of cells. -/
def DF.values (df : DF) : List (List Cell) :=
  (List.range df.nrows).map fun i => df.cols.map fun c => c.2.getD i none

/-- The error taxonomy: one constructor per distinct `ValueError` message in
the source, carrying the entity the message names. -/
inductive Err where
  | missingConfound (par : String)
  | invalidKeywordsType
  | noMatchingConfound (key : String)
  | unsupportedStrategy (strategy : String)
  | unsupportedConfoundType (conf : String)
  | invalidStrategyType
  | invalidInputType
deriving DecidableEq, Repr

/-- Equality of embedded outcomes is decidable (used to evaluate the
embedding at concrete inputs). -/
instance {ε α : Type} [DecidableEq ε] [DecidableEq α] : DecidableEq (Except ε α)
  | .error e, .error e' =>
    if h : e = e' then .isTrue (by rw [h]) else .isFalse (by simp [h])
  | .error _, .ok _ => .isFalse (by simp)
  | .ok _, .error _ => .isFalse (by simp)
  | .ok a, .ok a' =>
    if h : a = a' then .isTrue (by rw [h]) else .isFalse (by simp [h])

/-- Python's substring test `needle in hay` on strings. -/
def strContains (hay needle : String) : Bool :=
  decide (needle.toList <:+: hay.toList)

/-- Python `_add_suffix(params, model)`: copy `params`, then for each parameter
append its `_derivative1`, `_power2`, `_derivative1_power2` variants as the
model requires. -/
def addSuffix (params : List String) (model : String) : List String :=
  params.foldl
    (fun paramsFull par =>
      let paramsFull :=
        if model = "derivatives" ∨ model = "full" then
          paramsFull ++ [par ++ "_derivative1"]
        else paramsFull
      let paramsFull :=
        if model = "power2" ∨ model = "full" then
          paramsFull ++ [par ++ "_power2"]
        else paramsFull
      if model = "full" then
        paramsFull ++ [par ++ "_derivative1_power2"]
      else paramsFull)
    params

/-- Python `_check_params(confounds_raw, params)`: raise `MissingConfoundError` on
the first parameter absent from the table's columns. -/
def checkParams (df : DF) : List String → Except Err Unit
  | [] => .ok ()
  | par :: rest =>
    if df.columns.contains par then checkParams df rest
    else .error (.missingConfound par)

/-- The dynamic Python value passed as the `keywords` argument of
`_find_confounds` (the source checks `isinstance(keywords, list)`). -/
inductive PyArg where
  | pylist (ks : List String)
  | pytuple (ks : List String)
  | pystr (s : String)
  | pyint (n : Int)
deriving DecidableEq, Repr

/-- Whether the dynamic value is a Python `list`. -/
def PyArg.isList : PyArg → Bool
  | .pylist _ => true
  | _ => false

/-- Whether the dynamic value is a Python sequence
(`list`, `tuple` and `str` are sequences; `int` is not). -/
def PyArg.isSequence : PyArg → Bool
  | .pylist _ => true
  | .pytuple _ => true
  | .pystr _ => true
  | .pyint _ => false

/-- The keyword loop of `_find_confounds`: for each keyword collect, in table
column order, every column containing it; raise `NoMatchingConfoundError` on
a keyword matching nothing. -/
def findConfoundsLoop (cols : List String) : List String → Except Err (List String)
  | [] => .ok []
  | key :: rest =>
    let found := cols.filter fun col => strContains col key
    if found.isEmpty then .error (.noMatchingConfound key)
    else
      match findConfoundsLoop cols rest with
      | .error e => .error e
      | .ok r => .ok (found ++ r)

/-- Python `_find_confounds(confounds_raw, keywords)`: reject a non-`list` keywords
argument, then run the keyword loop. -/
def findConfounds (df : DF) (keywords : PyArg) : Except Err (List String) :=
  match keywords with
  | .pylist ks => findConfoundsLoop df.columns ks
  | _ => .error .invalidKeywordsType

/-- The type of the external PCA capability: `PCA(n_components).fit_transform`
applied to a cell matrix (a black-box fit-and-transform collaborator). -/
abbrev FitTransform := List (List Cell) → ℚ → List (List Cell)

/-- Python `pd.DataFrame(matrix)`: a frame whose columns are indexed `0 .. k-1`
(named by their integer index) filled column-wise from a row-major matrix. -/
def dfOfMatrix (mat : List (List Cell)) : DF :=
  let ncols := (mat.headD []).length
  ⟨(List.range ncols).map fun j => (toString j, mat.map fun row => row.getD j none)⟩

/-- Python `motion_pca.columns = ["motion_pca_" + str(col + 1) for col in
motion_pca.columns]`: the columns of a matrix-built frame are the integers
`0 .. k-1` in positional order, so `col + 1` is the position plus one. -/
def renameMotionPca (d : DF) : DF :=
  ⟨d.cols.enum.map fun jc => ("motion_pca_" ++ toString (jc.1 + 1), jc.2.2)⟩

/-- Python `_pca_motion(motion, n_components)`: drop incomplete rows, apply the
external PCA, wrap the component matrix in a frame, rename its columns. -/
def pcaMotionDF (ft : FitTransform) (motion : DF) (nComponents : ℚ) : DF :=
  let motion := motion.dropna
  let motionPca := dfOfMatrix (ft motion.values nComponents)
  renameMotionPca motionPca

/-- The six rigid-body base motion parameters of `_load_motion`. -/
def motionBaseParams : List String :=
  ["trans_x", "trans_y", "trans_z", "rot_x", "rot_y", "rot_z"]

/-- Python `_load_motion(confounds_raw, motion, pca_motion)`. -/
def loadMotion (ft : FitTransform) (df : DF) (motion : String) (pcaMotion : ℚ) :
    Except Err DF :=
  let motionParams := addSuffix motionBaseParams motion
  match checkParams df motionParams with
  | .error e => .error e
  | .ok _ =>
    let confoundsMotion := df.select motionParams
    let confoundsMotion :=
      if pcaMotion > 0 ∧ pcaMotion < 1 then pcaMotionDF ft confoundsMotion pcaMotion
      else confoundsMotion
    .ok confoundsMotion

/-- Python `_load_high_pass(confounds_raw)`. -/
def loadHighPass (df : DF) : Except Err DF :=
  match findConfounds df (.pylist ["cosine"]) with
  | .error e => .error e
  | .ok highPassParams => .ok (df.select highPassParams)

/-- Python `_load_wm_csf(confounds_raw, wm_csf)`. -/
def loadWmCsf (df : DF) (wmCsf : String) : Except Err DF :=
  let wmCsfParams := addSuffix ["csf", "white_matter"] wmCsf
  match checkParams df wmCsfParams with
  | .error e => .error e
  | .ok _ => .ok (df.select wmCsfParams)

/-- Python `_load_global(confounds_raw, global_signal)`. -/
def loadGlobal (df : DF) (globalSignal : String) : Except Err DF :=
  let globalParams := addSuffix ["global_signal"] globalSignal
  match checkParams df globalParams with
  | .error e => .error e
  | .ok _ => .ok (df.select globalParams)

/-- The closed set of confound categories (`all_confounds` in the source). -/
def allConfounds : List String := ["motion", "high_pass", "wm_csf", "global"]

/-- The dynamic Python value passed as the `strategy` argument
(a string, a list of strings, or something else such as an int). -/
inductive StrategyArg where
  | ofString (s : String)
  | ofList (l : List String)
  | ofInt (n : Int)
deriving DecidableEq, Repr

/-- The custom-list membership loop of `_sanitize_strategy`: raise
`UnsupportedConfoundTypeError` on the first entry outside the closed set. -/
def checkConfNames : List String → Except Err Unit
  | [] => .ok ()
  | conf :: rest =>
    if allConfounds.contains conf then checkConfNames rest
    else .error (.unsupportedConfoundType conf)

/-- Python `_sanitize_strategy(strategy)`. -/
def sanitizeStrategy : StrategyArg → Except Err (List String)
  | .ofString s =>
    if s = "minimal" then .ok ["motion", "high_pass", "wm_csf"]
    else if s = "minimal_glob" then .ok ["motion", "high_pass", "wm_csf", "global"]
    else .error (.unsupportedStrategy s)
  | .ofList l =>
    match checkConfNames l with
    | .error e => .error e
    | .ok _ => .ok l
  | .ofInt _ => .error .invalidStrategyType

/-- One per-input element after `_sanitize_confounds`: a DataFrame or a path. -/
inductive ConfoundsInput where
  | df (d : DF)
  | path (p : String)
deriving DecidableEq, Repr

/-- Python `s[-6:]`: the last six characters (the whole string if shorter). -/
def takeRight6 (s : String) : String :=
  ⟨s.toList.drop (s.toList.length - 6)⟩

/-- The image-path rewriting branch of `_confounds2df`: if the last six
characters contain "nii", rebuild the companion confounds filename from the
first "space-" occurrence onward. -/
def imagePathToConfoundsPath (p : String) : String :=
  if strContains (takeRight6 p) "nii" then
    let suffix := "_space-" ++ ((p.splitOn "space-").getD 1 "")
    p.replace suffix "_desc-confounds_regressors.tsv"
  else p

/-- Python `_confounds2df(confounds_raw)`: a DataFrame passes through; a path is
(after the image-path rewrite) read by the external tsv reader. -/
def confounds2df (readTsv : String → DF) : ConfoundsInput → DF
  | .df d => d
  | .path p => readTsv (imagePathToConfoundsPath p)

/-- The dynamic Python value passed as `confounds_raw` to the public entry
point: a DataFrame, a path string, a list of either, or something else. -/
inductive RawConfounds where
  | ofDF (d : DF)
  | ofPath (p : String)
  | ofList (l : List ConfoundsInput)
  | ofInt (n : Int)
deriving DecidableEq, Repr

/-- Python `_sanitize_confounds(confounds_raw)`: wrap a single DataFrame or path in
a singleton list (flagging it), accept a list, reject anything else. -/
def sanitizeConfounds : RawConfounds → Except Err (List ConfoundsInput × Bool)
  | .ofDF d => .ok ([.df d], true)
  | .ofPath p => .ok ([.path p], true)
  | .ofList l => .ok (l, false)
  | .ofInt _ => .error .invalidInputType

/-- One `if <name> in strategy:` block of `_load_confounds_single`: when the
category is selected, run its loader and concatenate column-wise onto the
accumulated output. -/
def appendIf (strategy : List String) (name : String) (loader : Except Err DF)
    (confounds : DF) : Except Err DF :=
  if strategy.contains name then
    match loader with
    | .error e => .error e
    | .ok c => .ok (DF.concat confounds c)
  else .ok confounds

/-- Python `_load_confounds_single(confounds_raw, strategy, motion, pca_motion,
wm_csf, global_signal)`. -/
def loadConfoundsSingle (ft : FitTransform) (readTsv : String → DF)
    (inp : ConfoundsInput) (strategy : StrategyArg) (motion : String)
    (pcaMotion : ℚ) (wmCsf : String) (globalSignal : String) : Except Err DF :=
  let confoundsRaw := confounds2df readTsv inp
  match sanitizeStrategy strategy with
  | .error e => .error e
  | .ok strat =>
    match appendIf strat "motion" (loadMotion ft confoundsRaw motion pcaMotion) DF.empty with
    | .error e => .error e
    | .ok c1 =>
      match appendIf strat "high_pass" (loadHighPass confoundsRaw) c1 with
      | .error e => .error e
      | .ok c2 =>
        match appendIf strat "wm_csf" (loadWmCsf confoundsRaw wmCsf) c2 with
        | .error e => .error e
        | .ok c3 => appendIf strat "global" (loadGlobal confoundsRaw globalSignal) c3

/-- The result of the public entry point: one table, or a list of tables. -/
inductive LoadResult where
  | single (d : DF)
  | many (l : List DF)
deriving DecidableEq, Repr

/-- The accumulating loop `for file in confounds_raw: confounds_out.append(...)`
over a fallible per-element computation: results in input order, first error
propagated (an uncaught exception aborts the whole loop). -/
def mapExcept {α β : Type} (f : α → Except Err β) : List α → Except Err (List β)
  | [] => .ok []
  | a :: rest =>
    match f a with
    | .error e => .error e
    | .ok b =>
      match mapExcept f rest with
      | .error e => .error e
      | .ok bs => .ok (b :: bs)

/-- Python `load_confounds(confounds_raw, strategy, motion, pca_motion, wm_csf,
global_signal)`: sanitize the input shape, process each input independently
in order (fail-fast), and unwrap a single input's result. -/
def load_confounds (ft : FitTransform) (readTsv : String → DF)
    (confoundsRaw : RawConfounds) (strategy : StrategyArg) (motion : String)
    (pcaMotion : ℚ) (wmCsf : String) (globalSignal : String) :
    Except Err LoadResult :=
  match sanitizeConfounds confoundsRaw with
  | .error e => .error e
  | .ok (inputs, flagSingle) =>
    match mapExcept
        (fun file => loadConfoundsSingle ft readTsv file strategy motion
          pcaMotion wmCsf globalSignal) inputs with
    | .error e => .error e
    | .ok confoundsOut =>
      if flagSingle then .ok (.single (confoundsOut.headD DF.empty))
      else .ok (.many confoundsOut)

/-! ### Derived descriptions used to state the claims -/

/-- The suffixed variants `_add_suffix` appends for one base parameter. -/
def perBaseSuffixes (model : String) (par : String) : List String :=
  (if model = "derivatives" ∨ model = "full" then [par ++ "_derivative1"] else []) ++
    (if model = "power2" ∨ model = "full" then [par ++ "_power2"] else []) ++
      (if model = "full" then [par ++ "_derivative1_power2"] else [])

/-- The category loader selected by one category name (the loader bodies are
the embedded source loaders; unknown names never occur in a sanitized
strategy). -/
def runLoader (ft : FitTransform) (raw : DF) (motion : String) (p : ℚ)
    (wmCsf globalSignal : String) : String → Except Err DF
  | "motion" => loadMotion ft raw motion p
  | "high_pass" => loadHighPass raw
  | "wm_csf" => loadWmCsf raw wmCsf
  | "global" => loadGlobal raw globalSignal
  | _ => .ok DF.empty

/-- Modelled from the spec (§4.7): run exactly the loaders of the categories
named by the resolved strategy, in the fixed canonical order `allConfounds`,
and concatenate their outputs column-wise in that order.  Stated from the
spec's words, to be compared with `loadConfoundsSingle`. -/
def assembleSpec (ft : FitTransform) (raw : DF) (strat : List String)
    (motion : String) (p : ℚ) (wmCsf globalSignal : String) : Except Err DF :=
  match mapExcept (runLoader ft raw motion p wmCsf globalSignal)
      (allConfounds.filter fun c => decide (c ∈ strat)) with
  | .error e => .error e
  | .ok parts => .ok ⟨(parts.map DF.cols).flatten⟩

/-- The per-category blocks of `_load_confounds_single` as a fold over an
explicit category order (proof device relating the two shapes above). -/
def foldAppend (strat : List String) (L : String → Except Err DF) :
    List String → DF → Except Err DF
  | [], acc => .ok acc
  | n :: rest, acc =>
    match appendIf strat n (L n) acc with
    | .error e => .error e
    | .ok acc' => foldAppend strat L rest acc'

/-! ### A heap model of the pandas objects (for the no-mutation claim)

Pandas DataFrames are mutable Python objects.  To state that the raw
confounds table is never mutated, the same pipeline is embedded once more in
a store-passing style: a heap of frames, references as indices, one fresh
allocation per pandas call that constructs a frame (`df[cols]`, `pd.concat`,
`df.dropna()`, `pd.DataFrame(...)`), and one in-place store for the single
mutating statement of the source (`motion_pca.columns = ...`). -/

/-- A store of pandas DataFrame objects; references are list indices. -/
structure Heap where
  frames : List DF
deriving DecidableEq, Repr

/-- Dereference (out-of-range reads give the empty frame). -/
def Heap.read (h : Heap) (r : Nat) : DF := h.frames.getD r DF.empty

/-- Allocate a fresh frame, returning its reference. -/
def Heap.alloc (h : Heap) (d : DF) : Heap × Nat :=
  (⟨h.frames ++ [d]⟩, h.frames.length)

/-- Store a frame in place at an existing reference. -/
def Heap.store (h : Heap) (r : Nat) (d : DF) : Heap := ⟨h.frames.set r d⟩

/-- Python `_pca_motion` in the heap model: `dropna` and `pd.DataFrame` allocate;
the column assignment mutates the freshly built frame in place. -/
def pcaMotionH (ft : FitTransform) (h : Heap) (r : Nat) (nComponents : ℚ) :
    Heap × Nat :=
  let hrd := h.alloc ((h.read r).dropna)
  let h1 := hrd.1
  let rd := hrd.2
  let hrp := h1.alloc (dfOfMatrix (ft (h1.read rd).values nComponents))
  let h2 := hrp.1
  let rp := hrp.2
  let h3 := h2.store rp (renameMotionPca (h2.read rp))
  (h3, rp)

/-- Python `_load_motion` in the heap model: column selection allocates a fresh
sub-frame of the raw table at `r`. -/
def loadMotionH (ft : FitTransform) (h : Heap) (r : Nat) (motion : String)
    (pcaMotion : ℚ) : Except Err (Heap × Nat) :=
  let motionParams := addSuffix motionBaseParams motion
  match checkParams (h.read r) motionParams with
  | .error e => .error e
  | .ok _ =>
    let hrm := h.alloc ((h.read r).select motionParams)
    if pcaMotion > 0 ∧ pcaMotion < 1 then .ok (pcaMotionH ft hrm.1 hrm.2 pcaMotion)
    else .ok hrm

/-- Python `_load_high_pass` in the heap model. -/
def loadHighPassH (h : Heap) (r : Nat) : Except Err (Heap × Nat) :=
  match findConfounds (h.read r) (.pylist ["cosine"]) with
  | .error e => .error e
  | .ok highPassParams => .ok (h.alloc ((h.read r).select highPassParams))

/-- Python `_load_wm_csf` in the heap model. -/
def loadWmCsfH (h : Heap) (r : Nat) (wmCsf : String) : Except Err (Heap × Nat) :=
  let wmCsfParams := addSuffix ["csf", "white_matter"] wmCsf
  match checkParams (h.read r) wmCsfParams with
  | .error e => .error e
  | .ok _ => .ok (h.alloc ((h.read r).select wmCsfParams))

/-- Python `_load_global` in the heap model. -/
def loadGlobalH (h : Heap) (r : Nat) (globalSignal : String) :
    Except Err (Heap × Nat) :=
  let globalParams := addSuffix ["global_signal"] globalSignal
  match checkParams (h.read r) globalParams with
  | .error e => .error e
  | .ok _ => .ok (h.alloc ((h.read r).select globalParams))

/-- One `if <name> in strategy:` block in the heap model: `pd.concat`
allocates the new accumulated frame. -/
def appendIfH (strategy : List String) (name : String)
    (loader : Heap → Except Err (Heap × Nat)) (h : Heap) (rc : Nat) :
    Except Err (Heap × Nat) :=
  if strategy.contains name then
    match loader h with
    | .error e => .error e
    | .ok hr => .ok (hr.1.alloc (DF.concat (hr.1.read rc) (hr.1.read hr.2)))
  else .ok (h, rc)

/-- Python `_load_confounds_single` in the heap model, on an input table already
materialized at reference `r` (`confounds_raw = _confounds2df(...)` returns
the caller's own DataFrame object unchanged for a DataFrame input). -/
def loadConfoundsSingleH (ft : FitTransform) (h : Heap) (r : Nat)
    (strategy : StrategyArg) (motion : String) (pcaMotion : ℚ)
    (wmCsf globalSignal : String) : Except Err (Heap × Nat) :=
  match sanitizeStrategy strategy with
  | .error e => .error e
  | .ok strat =>
    let hr0 := h.alloc DF.empty
    match appendIfH strat "motion" (fun hh => loadMotionH ft hh r motion pcaMotion)
        hr0.1 hr0.2 with
    | .error e => .error e
    | .ok hr1 =>
      match appendIfH strat "high_pass" (fun hh => loadHighPassH hh r) hr1.1 hr1.2 with
      | .error e => .error e
      | .ok hr2 =>
        match appendIfH strat "wm_csf" (fun hh => loadWmCsfH hh r wmCsf) hr2.1 hr2.2 with
        | .error e => .error e
        | .ok hr3 =>
          appendIfH strat "global" (fun hh => loadGlobalH hh r globalSignal) hr3.1 hr3.2

/-- Heap extension: nothing allocated in `h` has been overwritten. -/
def heapGrows (h h' : Heap) : Prop :=
  h.frames.length ≤ h'.frames.length ∧
    ∀ i, i < h.frames.length → h'.read i = h.read i

/-- The heap after a heap-model computation (the unchanged heap on error). -/
def resultHeap (res : Except Err (Heap × Nat)) (dflt : Heap) : Heap :=
  match res with
  | .ok hr => hr.1
  | .error _ => dflt

/-! ### Concrete inputs used by witnesses and counterexamples -/

/-- A table with exactly the six basic motion columns, in canonical order. -/
def dfMotion6 : DF :=
  ⟨[("trans_x", [some 1]), ("trans_y", [some 2]), ("trans_z", [some 3]),
    ("rot_x", [some 4]), ("rot_y", [some 5]), ("rot_z", [some 6])]⟩

/-- A table with columns `cosine00`, `cosine01`, `trans_x`. -/
def dfHighPassExample : DF :=
  ⟨[("cosine00", [some 1]), ("cosine01", [some 2]), ("trans_x", [some 3])]⟩

/-- A table with basic motion, cosine, tissue and global-signal columns. -/
def dfAll : DF :=
  ⟨[("trans_x", [some 1]), ("trans_y", [some 2]), ("trans_z", [some 3]),
    ("rot_x", [some 4]), ("rot_y", [some 5]), ("rot_z", [some 6]),
    ("cosine00", [some 7]), ("csf", [some 8]), ("white_matter", [some 9]),
    ("global_signal", [some 10])]⟩

/-- A concrete stand-in for the external PCA capability. -/
def ft0 : FitTransform := fun mat _ => mat

/-- A concrete stand-in for the external tsv reader. -/
def rt0 : String → DF := fun _ => DF.empty

/-! ### General lemmas -/

/-- The loop body of `_add_suffix` appends exactly `perBaseSuffixes`. -/
theorem addSuffix_step_eq (model : String) (acc : List String) (par : String) :
    (let paramsFull :=
      if model = "derivatives" ∨ model = "full" then
        acc ++ [par ++ "_derivative1"]
      else acc
    let paramsFull :=
      if model = "power2" ∨ model = "full" then
        paramsFull ++ [par ++ "_power2"]
      else paramsFull
    if model = "full" then
      paramsFull ++ [par ++ "_derivative1_power2"]
    else paramsFull) = acc ++ perBaseSuffixes model par := by
  simp only [perBaseSuffixes]
  split_ifs <;> simp

/-- Folding list appends is concatenation of the per-element lists. -/
theorem foldl_append_flatMap {α β : Type} (g : α → List β) (ps : List α) :
    ∀ acc : List β,
      ps.foldl (fun acc a => acc ++ g a) acc = acc ++ ps.flatMap g := by
  induction ps with
  | nil => intro acc; simp
  | cons p rest ih =>
    intro acc
    simp [List.foldl_cons, List.flatMap_cons, ih, List.append_assoc]

/-- Python `_add_suffix` returns the bases followed by each base's suffixed
variants, base by base. -/
theorem addSuffix_eq (params : List String) (model : String) :
    addSuffix params model = params ++ params.flatMap (perBaseSuffixes model) := by
  unfold addSuffix
  have hfun :
      (fun (paramsFull : List String) (par : String) =>
        let paramsFull :=
          if model = "derivatives" ∨ model = "full" then
            paramsFull ++ [par ++ "_derivative1"]
          else paramsFull
        let paramsFull :=
          if model = "power2" ∨ model = "full" then
            paramsFull ++ [par ++ "_power2"]
          else paramsFull
        if model = "full" then
          paramsFull ++ [par ++ "_derivative1_power2"]
        else paramsFull) =
        fun (acc : List String) (par : String) => acc ++ perBaseSuffixes model par := by
    funext acc par
    exact addSuffix_step_eq model acc par
  rw [hfun]
  exact foldl_append_flatMap (perBaseSuffixes model) params params

/-- In "full" mode each base contributes three suffixed names. -/
theorem flatMap_perBaseSuffixes_full_length (params : List String) :
    (params.flatMap (perBaseSuffixes "full")).length = 3 * params.length := by
  induction params with
  | nil => rfl
  | cons p rest ih =>
    simp only [List.flatMap_cons, List.length_append, ih]
    simp [perBaseSuffixes]
    omega

/-- In "basic" mode no suffixed names are appended. -/
theorem addSuffix_basic (params : List String) :
    addSuffix params "basic" = params := by
  rw [addSuffix_eq]
  have h : params.flatMap (perBaseSuffixes "basic") = [] := by
    induction params with
    | nil => rfl
    | cons p rest ih => simp [List.flatMap_cons, perBaseSuffixes, ih]
  simp [h]

/-- Python `_check_params` reports the first required name absent from the table. -/
theorem checkParams_eq_find (df : DF) (ps : List String) :
    checkParams df ps =
      match ps.find? (fun q => !(df.columns.contains q)) with
      | some q => .error (.missingConfound q)
      | none => .ok () := by
  induction ps with
  | nil => rfl
  | cons p rest ih =>
    simp only [checkParams, List.find?_cons]
    by_cases hm : p ∈ df.columns
    · simp [hm, ih]
    · simp [hm]

/-- The custom-strategy loop reports the first entry outside the closed set. -/
theorem checkConfNames_eq_find (l : List String) :
    checkConfNames l =
      match l.find? (fun c => !(allConfounds.contains c)) with
      | some c => .error (.unsupportedConfoundType c)
      | none => .ok () := by
  induction l with
  | nil => rfl
  | cons c rest ih =>
    simp only [checkConfNames, List.find?_cons]
    by_cases hm : c ∈ allConfounds
    · simp [hm, ih]
    · simp [hm]

/-- The keyword loop of `_find_confounds`: error at the first keyword
matching no column, otherwise all matches keyword-by-keyword in column
order. -/
theorem findConfoundsLoop_eq (cols ks : List String) :
    findConfoundsLoop cols ks =
      match ks.find? (fun k => (cols.filter fun c => strContains c k).isEmpty) with
      | some k => .error (.noMatchingConfound k)
      | none => .ok (ks.flatMap fun k => cols.filter fun c => strContains c k) := by
  induction ks with
  | nil => rfl
  | cons k rest ih =>
    simp only [findConfoundsLoop]
    cases he : (cols.filter fun c => strContains c k).isEmpty with
    | true => simp [List.find?_cons, he]
    | false =>
      rw [ih]
      cases hf : rest.find? (fun k => (cols.filter fun c => strContains c k).isEmpty) with
      | some k' => simp [List.find?_cons, he, hf]
      | none => simp [List.find?_cons, he, hf, List.flatMap_cons]

/-- The keyword loop never raises the keywords-type error. -/
theorem findConfoundsLoop_ne_invalid (cols ks : List String) :
    findConfoundsLoop cols ks ≠ .error .invalidKeywordsType := by
  rw [findConfoundsLoop_eq]
  cases hf : ks.find? (fun k => (cols.filter fun c => strContains c k).isEmpty) <;> simp

/-! ### Claims -/

/-- Claim C1 (amended): for every ordered list of base names and every mode,
`_add_suffix` returns all base names first in original order, then for each
base in order its `_derivative1`, `_power2`, `_derivative1_power2` variants
as the mode requires — interleaved per base, not grouped by suffix — so that
"full" yields `4 * len(bases)` names and "basic" yields exactly the bases,
with no error for any mode. -/
theorem claim_C1 (params : List String) (model : String) :
    addSuffix params model = params ++ params.flatMap (perBaseSuffixes model) ∧
    params <+: addSuffix params model ∧
    (addSuffix params "full").length = 4 * params.length ∧
    addSuffix params "basic" = params := by
  refine ⟨addSuffix_eq params model, ?_, ?_, addSuffix_basic params⟩
  · rw [addSuffix_eq]
    exact List.prefix_append params _
  · rw [addSuffix_eq, List.length_append, flatMap_perBaseSuffixes_full_length]
    omega

/-- Claim C1 counterexample: for two bases in mode "full", `_add_suffix`
emits each base's three suffixed variants together (interleaved per base),
not grouped by suffix across all bases as the claim prescribes. -/
theorem claim_C1_counterexample :
    addSuffix ["csf", "white_matter"] "full" =
      ["csf", "white_matter",
       "csf_derivative1", "csf_power2", "csf_derivative1_power2",
       "white_matter_derivative1", "white_matter_power2",
       "white_matter_derivative1_power2"] ∧
    addSuffix ["csf", "white_matter"] "full" ≠
      ["csf", "white_matter",
       "csf_derivative1", "white_matter_derivative1",
       "csf_power2", "white_matter_power2",
       "csf_derivative1_power2", "white_matter_derivative1_power2"] := by
  constructor
  · decide
  · decide

/-- Claim C3: `_sanitize_strategy` maps "minimal" and "minimal_glob" to
their fixed category lists, returns a custom list unchanged when all entries
are in the closed set and otherwise raises the unsupported-confound error
naming the first offending entry, raises the unsupported-strategy error for
any other preset string, and the strategy-type error for a non-string,
non-list strategy. -/
theorem claim_C3 :
    sanitizeStrategy (.ofString "minimal") = .ok ["motion", "high_pass", "wm_csf"] ∧
    sanitizeStrategy (.ofString "minimal_glob") =
      .ok ["motion", "high_pass", "wm_csf", "global"] ∧
    (∀ s : String, s ≠ "minimal" → s ≠ "minimal_glob" →
      sanitizeStrategy (.ofString s) = .error (.unsupportedStrategy s)) ∧
    (∀ l : List String,
      sanitizeStrategy (.ofList l) =
        match l.find? (fun c => !(allConfounds.contains c)) with
        | some c => .error (.unsupportedConfoundType c)
        | none => .ok l) ∧
    (∀ n : Int, sanitizeStrategy (.ofInt n) = .error .invalidStrategyType) := by
  refine ⟨by decide, by decide, ?_, ?_, fun n => rfl⟩
  · intro s h1 h2
    simp [sanitizeStrategy, h1, h2]
  · intro l
    simp only [sanitizeStrategy, checkConfNames_eq_find]
    cases hf : l.find? (fun c => !(allConfounds.contains c)) <;> simp [hf]

/-- Witness for claim C3 at the spec's own examples. -/
theorem claim_C3_witness :
    sanitizeStrategy (.ofString "bogus") = .error (.unsupportedStrategy "bogus") ∧
    sanitizeStrategy (.ofList ["global"]) = .ok ["global"] ∧
    sanitizeStrategy (.ofList ["bogus"]) = .error (.unsupportedConfoundType "bogus") := by
  refine ⟨claim_C3.2.2.1 "bogus" (by decide) (by decide), ?_, ?_⟩
  · rw [claim_C3.2.2.2.1 ["global"]]
    decide
  · rw [claim_C3.2.2.2.1 ["bogus"]]
    decide

/-- Claim C5: the keyword matcher returns, keyword by keyword and in table
column order within each keyword, every column containing the keyword,
without de-duplication, and raises the no-matching-confound error naming
the first keyword matching zero columns; on the table with columns
cosine00, cosine01, trans_x the high-pass loader returns exactly the two
cosine columns in table order. -/
theorem claim_C5 :
    (∀ (df : DF) (ks : List String),
      findConfounds df (.pylist ks) =
        match ks.find? (fun k => (df.columns.filter fun c => strContains c k).isEmpty) with
        | some k => .error (.noMatchingConfound k)
        | none => .ok (ks.flatMap fun k => df.columns.filter fun c => strContains c k)) ∧
    findConfounds dfHighPassExample (.pylist ["cosine"]) = .ok ["cosine00", "cosine01"] ∧
    loadHighPass dfHighPassExample =
      .ok ⟨[("cosine00", [some 1]), ("cosine01", [some 2])]⟩ := by
  refine ⟨?_, by decide, by decide⟩
  intro df ks
  exact findConfoundsLoop_eq df.columns ks

/-- Claim C7: `_check_params` raises the missing-confound error naming the
first missing required name and has no other effect, a failed check makes
the motion loader fail with that very error and no partial output, and on a
table with exactly the six basic motion columns mode "full" fails with the
missing-confound error while mode "basic" returns the six columns with
values unchanged. -/
theorem claim_C7 :
    (∀ (df : DF) (ps : List String),
      checkParams df ps =
        match ps.find? (fun q => !(df.columns.contains q)) with
        | some q => .error (.missingConfound q)
        | none => .ok ()) ∧
    (∀ (ft : FitTransform) (df : DF) (motion : String) (p : ℚ) (e : Err),
      checkParams df (addSuffix motionBaseParams motion) = .error e →
      loadMotion ft df motion p = .error e) ∧
    (∀ (ft : FitTransform) (p : ℚ),
      loadMotion ft dfMotion6 "full" p = .error (.missingConfound "trans_x_derivative1")) ∧
    (∀ ft : FitTransform, loadMotion ft dfMotion6 "basic" 1 = .ok dfMotion6) := by
  refine ⟨checkParams_eq_find, ?_, ?_, ?_⟩
  · intro ft df motion p e he
    simp [loadMotion, he]
  · intro ft p
    have hc : checkParams dfMotion6 (addSuffix motionBaseParams "full") =
        .error (.missingConfound "trans_x_derivative1") := by decide
    simp [loadMotion, hc]
  · intro ft
    have hc : checkParams dfMotion6 (addSuffix motionBaseParams "basic") = .ok () := by
      decide
    simp only [loadMotion, hc]
    norm_num
    decide

/-- Witness for claim C7: the error-propagation conjunct at the spec's
six-basic-columns table. -/
theorem claim_C7_witness :
    loadMotion ft0 dfMotion6 "full" (1 / 2) =
      .error (.missingConfound "trans_x_derivative1") ∧
    loadMotion ft0 dfMotion6 "basic" 1 = .ok dfMotion6 := by
  exact ⟨claim_C7.2.1 ft0 dfMotion6 "full" (1 / 2)
      (.missingConfound "trans_x_derivative1") (by decide),
    claim_C7.2.2.2 ft0⟩

/-- Claim C8 counterexample: a tuple is a Python sequence, yet the keyword
matcher rejects it with the keywords-type error instead of proceeding to
matching. -/
theorem claim_C8_counterexample :
    (PyArg.pytuple ["cosine"]).isSequence = true ∧
    findConfounds dfHighPassExample (.pytuple ["cosine"]) =
      .error .invalidKeywordsType :=
  ⟨rfl, rfl⟩

/-- Claim C8 (amended): the keyword matcher fails with the keywords-type
error iff its keywords argument is not a Python `list` — so non-list
sequences such as tuples and strings are rejected too — and for every list
it proceeds to the keyword matching loop. -/
theorem claim_C8 :
    (∀ (df : DF) (ka : PyArg),
      findConfounds df ka = .error .invalidKeywordsType ↔ ka.isList = false) ∧
    (∀ (df : DF) (ks : List String),
      findConfounds df (.pylist ks) = findConfoundsLoop df.columns ks) := by
  constructor
  · intro df ka
    cases ka with
    | pylist ks =>
      simp only [findConfounds, PyArg.isList]
      simp [findConfoundsLoop_ne_invalid df.columns ks]
    | pytuple ks => simp [findConfounds, PyArg.isList]
    | pystr s => simp [findConfounds, PyArg.isList]
    | pyint n => simp [findConfounds, PyArg.isList]
  · intro df ks
    rfl

/-- The per-category fold equals filtering the category order by strategy
membership, running the selected loaders, and concatenating column-wise. -/
theorem foldAppend_eq (strat : List String) (L : String → Except Err DF)
    (order : List String) :
    ∀ acc : DF,
      foldAppend strat L order acc =
        match mapExcept L (order.filter fun c => decide (c ∈ strat)) with
        | .error e => .error e
        | .ok parts => .ok ⟨acc.cols ++ (parts.map DF.cols).flatten⟩ := by
  induction order with
  | nil =>
    intro acc
    simp [foldAppend, mapExcept]
  | cons n rest ih =>
    intro acc
    by_cases hn : n ∈ strat
    · cases el : L n with
      | error e =>
        simp [foldAppend, appendIf, hn, List.filter_cons, el, mapExcept]
      | ok c =>
        cases hm : mapExcept L (rest.filter fun c => decide (c ∈ strat)) with
        | error e =>
          simp [foldAppend, appendIf, hn, List.filter_cons, el, mapExcept,
            hm, ih]
        | ok parts =>
          simp [foldAppend, appendIf, hn, List.filter_cons, el, mapExcept,
            hm, ih, DF.concat, List.append_assoc]
    · simp [foldAppend, appendIf, hn, List.filter_cons, ih]

/-- Python `_load_confounds_single` is the per-category fold over the fixed
canonical category order. -/
theorem loadConfoundsSingle_eq_foldAppend (ft : FitTransform)
    (rt : String → DF) (inp : ConfoundsInput) (s : StrategyArg)
    (motion : String) (p : ℚ) (w g : String) (strat : List String)
    (hs : sanitizeStrategy s = .ok strat) :
    loadConfoundsSingle ft rt inp s motion p w g =
      foldAppend strat (runLoader ft (confounds2df rt inp) motion p w g)
        allConfounds DF.empty := by
  unfold loadConfoundsSingle
  rw [hs]
  simp only [allConfounds, foldAppend, runLoader]
  cases appendIf strat "motion" (loadMotion ft (confounds2df rt inp) motion p)
      DF.empty with
  | error e => rfl
  | ok c1 =>
    dsimp only
    cases appendIf strat "high_pass" (loadHighPass (confounds2df rt inp)) c1 with
    | error e => rfl
    | ok c2 =>
      dsimp only
      cases appendIf strat "wm_csf" (loadWmCsf (confounds2df rt inp) w) c2 with
      | error e => rfl
      | ok c3 =>
        dsimp only
        cases appendIf strat "global" (loadGlobal (confounds2df rt inp) g) c3 with
        | error e => rfl
        | ok c4 => rfl

/-- Claim C2: for every input and every resolved strategy, the assembler
equals the spec-side description — run exactly the loaders of the categories
in the resolved strategy, in the fixed canonical order [motion, high_pass,
wm_csf, global], and concatenate their outputs column-wise in that order, an
absent category contributing no columns — and the result is insensitive to
the order in which categories appeared in a custom strategy list. -/
theorem claim_C2 (ft : FitTransform) (rt : String → DF) (inp : ConfoundsInput)
    (s : StrategyArg) (strat : List String) (motion : String) (p : ℚ)
    (w g : String) (hs : sanitizeStrategy s = .ok strat) :
    loadConfoundsSingle ft rt inp s motion p w g =
      assembleSpec ft (confounds2df rt inp) strat motion p w g ∧
    ∀ strat' : List String, (∀ c, c ∈ strat ↔ c ∈ strat') →
      assembleSpec ft (confounds2df rt inp) strat motion p w g =
        assembleSpec ft (confounds2df rt inp) strat' motion p w g := by
  constructor
  · rw [loadConfoundsSingle_eq_foldAppend ft rt inp s motion p w g strat hs,
      foldAppend_eq]
    unfold assembleSpec
    cases hm : mapExcept (runLoader ft (confounds2df rt inp) motion p w g)
        (allConfounds.filter fun c => decide (c ∈ strat)) with
    | error e => simp [hm]
    | ok parts => simp [hm, DF.empty]
  · intro strat' hmem
    unfold assembleSpec
    have hf : (allConfounds.filter fun c => decide (c ∈ strat)) =
        allConfounds.filter fun c => decide (c ∈ strat') := by
      apply List.filter_congr
      intro c _
      exact decide_eq_decide.mpr (hmem c)
    rw [hf]

/-- Witness for claim C2: a custom two-category strategy given in
non-canonical order, on a table holding all base signals. -/
theorem claim_C2_witness :
    loadConfoundsSingle ft0 rt0 (.df dfAll) (.ofList ["global", "motion"])
      "basic" 1 "basic" "basic" =
      assembleSpec ft0 (confounds2df rt0 (.df dfAll)) ["global", "motion"]
        "basic" 1 "basic" "basic" :=
  (claim_C2 ft0 rt0 (.df dfAll) (.ofList ["global", "motion"])
    ["global", "motion"] "basic" 1 "basic" "basic" (by decide)).1

/-- Claim C4: when the required expanded motion columns are present, the
motion loader applies the reduction — dropping incomplete rows of the motion
sub-table, handing it to the external PCA and replacing the sub-table by the
renamed component frame — exactly when `pca_motion` lies strictly in (0, 1);
for `pca_motion` equal to 0 or 1 (the default) or outside that interval, the
expanded raw motion columns are returned unchanged. -/
theorem claim_C4 (ft : FitTransform) (df : DF) (motion : String) (p : ℚ)
    (h : checkParams df (addSuffix motionBaseParams motion) = .ok ()) :
    (0 < p ∧ p < 1 →
      loadMotion ft df motion p =
        .ok (renameMotionPca (dfOfMatrix
          (ft ((df.select (addSuffix motionBaseParams motion)).dropna).values p)))) ∧
    (¬(0 < p ∧ p < 1) →
      loadMotion ft df motion p =
        .ok (df.select (addSuffix motionBaseParams motion))) := by
  constructor
  · intro hp
    simp [loadMotion, h, hp, pcaMotionDF]
  · intro hp
    simp [loadMotion, h, hp]

/-- Witness for claim C4: a basic-motion table, with the reducing fraction
1/2 and with the default boundary value 1. -/
theorem claim_C4_witness :
    loadMotion ft0 dfMotion6 "basic" (1 / 2) =
      .ok (renameMotionPca (dfOfMatrix
        (ft0 ((dfMotion6.select (addSuffix motionBaseParams "basic")).dropna).values
          (1 / 2)))) ∧
    loadMotion ft0 dfMotion6 "basic" 1 =
      .ok (dfMotion6.select (addSuffix motionBaseParams "basic")) := by
  constructor
  · exact (claim_C4 ft0 dfMotion6 "basic" (1 / 2) (by decide)).1 (by norm_num)
  · exact (claim_C4 ft0 dfMotion6 "basic" 1 (by decide)).2 (by norm_num)

/-- A successful batch run has one output per input, in order, each the
result of the per-input computation. -/
theorem mapExcept_ok_pointwise {α β : Type} (f : α → Except Err β) :
    ∀ (l : List α) (outs : List β), mapExcept f l = .ok outs →
      outs.length = l.length ∧
      ∀ (j : ℕ) (hj : j < l.length) (hj' : j < outs.length),
        f (l.get ⟨j, hj⟩) = .ok (outs.get ⟨j, hj'⟩) := by
  intro l
  induction l with
  | nil =>
    intro outs h
    simp only [mapExcept, Except.ok.injEq] at h
    subst h
    exact ⟨rfl, fun j hj _ => absurd hj (by simp)⟩
  | cons a t ih =>
    intro outs h
    simp only [mapExcept] at h
    cases e1 : f a with
    | error e => rw [e1] at h; exact absurd h (by simp)
    | ok b =>
      rw [e1] at h
      cases e2 : mapExcept f t with
      | error e => rw [e2] at h; exact absurd h (by simp)
      | ok bs =>
        rw [e2] at h
        have hbs : b :: bs = outs := by simpa using h
        subst hbs
        obtain ⟨hlen, hpt⟩ := ih bs e2
        refine ⟨by simp [hlen], ?_⟩
        intro j hj hj'
        cases j with
        | zero => exact e1
        | succ k =>
          have hk : k < t.length := by simpa using hj
          have hk' : k < bs.length := by simpa using hj'
          exact hpt k hk hk'

/-- Claim C6: the public entry point maps a list of N inputs to the list of
the N per-input results in the same order (failing fast on the first error),
each computed independently from its input; a bare DataFrame or path input
yields a single table, not a list. -/
theorem claim_C6 (ft : FitTransform) (rt : String → DF) (s : StrategyArg)
    (motion : String) (p : ℚ) (w g : String) :
    (∀ d : DF,
      load_confounds ft rt (.ofDF d) s motion p w g =
        match loadConfoundsSingle ft rt (.df d) s motion p w g with
        | .error e => .error e
        | .ok c => .ok (.single c)) ∧
    (∀ pth : String,
      load_confounds ft rt (.ofPath pth) s motion p w g =
        match loadConfoundsSingle ft rt (.path pth) s motion p w g with
        | .error e => .error e
        | .ok c => .ok (.single c)) ∧
    (∀ inputs : List ConfoundsInput,
      load_confounds ft rt (.ofList inputs) s motion p w g =
        match mapExcept
            (fun file => loadConfoundsSingle ft rt file s motion p w g) inputs with
        | .error e => .error e
        | .ok outs => .ok (.many outs)) ∧
    (∀ (inputs : List ConfoundsInput) (outs : List DF),
      mapExcept (fun file => loadConfoundsSingle ft rt file s motion p w g)
          inputs = .ok outs →
      outs.length = inputs.length ∧
      ∀ (j : ℕ) (hj : j < inputs.length) (hj' : j < outs.length),
        loadConfoundsSingle ft rt (inputs.get ⟨j, hj⟩) s motion p w g =
          .ok (outs.get ⟨j, hj'⟩)) := by
  refine ⟨?_, ?_, ?_, ?_⟩
  · intro d
    cases e1 : loadConfoundsSingle ft rt (.df d) s motion p w g <;>
      simp [load_confounds, sanitizeConfounds, mapExcept, e1]
  · intro pth
    cases e1 : loadConfoundsSingle ft rt (.path pth) s motion p w g <;>
      simp [load_confounds, sanitizeConfounds, mapExcept, e1]
  · intro inputs
    cases hm : mapExcept
        (fun file => loadConfoundsSingle ft rt file s motion p w g) inputs <;>
      simp [load_confounds, sanitizeConfounds, hm]
  · intro inputs outs h
    exact mapExcept_ok_pointwise _ inputs outs h

/-- Witness for claim C6: three inputs give three outputs in order; a bare
DataFrame gives a single table. -/
theorem claim_C6_witness :
    load_confounds ft0 rt0 (.ofList [.df dfAll, .df dfAll, .df dfAll])
      (.ofList []) "basic" 1 "basic" "basic" =
      .ok (.many [DF.empty, DF.empty, DF.empty]) ∧
    load_confounds ft0 rt0 (.ofDF dfAll) (.ofList []) "basic" 1 "basic" "basic" =
      .ok (.single DF.empty) ∧
    ([DF.empty, DF.empty, DF.empty] : List DF).length =
      ([ConfoundsInput.df dfAll, .df dfAll, .df dfAll] : List ConfoundsInput).length := by
  refine ⟨?_, ?_, ?_⟩
  · rw [(claim_C6 ft0 rt0 (.ofList []) "basic" 1 "basic" "basic").2.2.1
      [.df dfAll, .df dfAll, .df dfAll]]
    decide
  · rw [(claim_C6 ft0 rt0 (.ofList []) "basic" 1 "basic" "basic").1 dfAll]
    decide
  · exact ((claim_C6 ft0 rt0 (.ofList []) "basic" 1 "basic" "basic").2.2.2
      [.df dfAll, .df dfAll, .df dfAll] [DF.empty, DF.empty, DF.empty]
      (by decide)).1

/-- A custom list whose entries all lie in the closed category set is
sanitized to itself. -/
theorem sanitizeStrategy_ofList_ok (l : List String)
    (hv : ∀ c ∈ l, c ∈ allConfounds) :
    sanitizeStrategy (.ofList l) = .ok l := by
  simp only [sanitizeStrategy, checkConfNames_eq_find]
  have hf : l.find? (fun c => !(allConfounds.contains c)) = none :=
    List.find?_eq_none.mpr fun c hc => by simp [hv c hc]
  rw [hf]

/-- One strategy block only consults strategy membership of its category. -/
theorem appendIf_congr (l l' : List String) (name : String)
    (h : name ∈ l ↔ name ∈ l') (loader : Except Err DF) (acc : DF) :
    appendIf l name loader acc = appendIf l' name loader acc := by
  unfold appendIf
  by_cases hn : name ∈ l
  · rw [show l.contains name = true from List.elem_iff.mpr hn,
      show l'.contains name = true from List.elem_iff.mpr (h.mp hn)]
  · rw [show l.contains name = false from
        Bool.eq_false_iff.mpr fun hh => hn (List.elem_iff.mp hh),
      show l'.contains name = false from
        Bool.eq_false_iff.mpr fun hh => hn (h.mpr (List.elem_iff.mp hh))]

/-- The per-category fold only consults strategy membership. -/
theorem foldAppend_congr (L : String → Except Err DF) (l l' : List String)
    (hmem : ∀ c, c ∈ l ↔ c ∈ l') :
    ∀ (order : List String) (acc : DF),
      foldAppend l L order acc = foldAppend l' L order acc := by
  intro order
  induction order with
  | nil => intro acc; rfl
  | cons n rest ih =>
    intro acc
    simp only [foldAppend, appendIf_congr l l' n (hmem n)]
    cases appendIf l' n (L n) acc with
    | error e => rfl
    | ok acc' => exact ih acc'

/-- Python `_load_confounds_single` on a valid custom strategy list depends only on
which categories the list contains. -/
theorem loadSingle_custom_membership (ft : FitTransform) (rt : String → DF)
    (inp : ConfoundsInput) (motion : String) (p : ℚ) (w g : String)
    (l l' : List String) (hv : ∀ c ∈ l, c ∈ allConfounds)
    (hv' : ∀ c ∈ l', c ∈ allConfounds) (hmem : ∀ c, c ∈ l ↔ c ∈ l') :
    loadConfoundsSingle ft rt inp (.ofList l) motion p w g =
      loadConfoundsSingle ft rt inp (.ofList l') motion p w g := by
  rw [loadConfoundsSingle_eq_foldAppend ft rt inp _ motion p w g l
      (sanitizeStrategy_ofList_ok l hv),
    loadConfoundsSingle_eq_foldAppend ft rt inp _ motion p w g l'
      (sanitizeStrategy_ofList_ok l' hv')]
  exact foldAppend_congr _ l l' hmem allConfounds DF.empty

/-- Claim C10: duplicate category identifiers in a custom strategy list are
accepted and have no effect — the output equals the output for the
duplicate-free list, each loader contributing at most once — and the empty
custom list is accepted and yields a table with zero columns. -/
theorem claim_C10 (ft : FitTransform) (rt : String → DF) (inp : ConfoundsInput)
    (motion : String) (p : ℚ) (w g : String) :
    (∀ l : List String, (∀ c ∈ l, c ∈ allConfounds) →
      loadConfoundsSingle ft rt inp (.ofList l) motion p w g =
        loadConfoundsSingle ft rt inp (.ofList l.dedup) motion p w g) ∧
    loadConfoundsSingle ft rt inp (.ofList []) motion p w g = .ok DF.empty ∧
    loadConfoundsSingle ft rt inp (.ofList ["motion", "motion"]) motion p w g =
      loadConfoundsSingle ft rt inp (.ofList ["motion"]) motion p w g := by
  refine ⟨?_, ?_, ?_⟩
  · intro l hv
    exact loadSingle_custom_membership ft rt inp motion p w g l l.dedup hv
      (fun c hc => hv c (List.mem_dedup.mp hc)) (fun c => List.mem_dedup.symm)
  · rfl
  · exact loadSingle_custom_membership ft rt inp motion p w g
      ["motion", "motion"] ["motion"] (by decide) (by decide) (fun c => by simp)

/-- Witness for claim C10: the duplicated-motion strategy on a concrete
table, and the empty strategy. -/
theorem claim_C10_witness :
    loadConfoundsSingle ft0 rt0 (.df dfAll) (.ofList ["motion", "motion"])
      "basic" 1 "basic" "basic" =
      loadConfoundsSingle ft0 rt0 (.df dfAll)
        (.ofList (["motion", "motion"].dedup)) "basic" 1 "basic" "basic" ∧
    loadConfoundsSingle ft0 rt0 (.df dfAll) (.ofList []) "basic" 1 "basic"
      "basic" = .ok DF.empty :=
  ⟨(claim_C10 ft0 rt0 (.df dfAll) "basic" 1 "basic" "basic").1
      ["motion", "motion"] (by decide),
    (claim_C10 ft0 rt0 (.df dfAll) "basic" 1 "basic" "basic").2.1⟩

/-- Heaps grow reflexively. -/
theorem heapGrows_refl (h : Heap) : heapGrows h h :=
  ⟨le_refl _, fun _ _ => rfl⟩

/-- Heap growth composes. -/
theorem heapGrows_trans {h1 h2 h3 : Heap} (a : heapGrows h1 h2)
    (b : heapGrows h2 h3) : heapGrows h1 h3 :=
  ⟨le_trans a.1 b.1, fun i hi => (b.2 i (lt_of_lt_of_le hi a.1)).trans (a.2 i hi)⟩

/-- Allocation leaves every existing frame in place. -/
theorem heapGrows_alloc (h : Heap) (d : DF) : heapGrows h (h.alloc d).1 := by
  refine ⟨by simp [Heap.alloc], ?_⟩
  intro i hi
  simp only [Heap.alloc, Heap.read, List.getD_eq_getElem?_getD,
    List.getElem?_append_left hi]

/-- A store at a different reference does not change a read. -/
theorem Heap.read_store_ne (h : Heap) (r : Nat) (d : DF) (i : Nat)
    (hne : r ≠ i) : (h.store r d).read i = h.read i := by
  simp [Heap.store, Heap.read, List.getD_eq_getElem?_getD,
    List.getElem?_set_ne hne]

/-- Storing at a reference allocated after `h` preserves all of `h`. -/
theorem heapGrows_store_fresh {h h' : Heap} (g : heapGrows h h') (r : Nat)
    (hr : h.frames.length ≤ r) (d : DF) : heapGrows h (h'.store r d) := by
  constructor
  · rw [show (h'.store r d).frames.length = h'.frames.length from by
      simp [Heap.store]]
    exact g.1
  · intro i hi
    rw [Heap.read_store_ne h' r d i (by omega)]
    exact g.2 i hi

/-- The heap-model `_pca_motion` only allocates and mutates fresh frames. -/
theorem heapGrows_pcaMotionH (ft : FitTransform) (h : Heap) (r : Nat) (nc : ℚ) :
    heapGrows h (pcaMotionH ft h r nc).1 := by
  dsimp only [pcaMotionH]
  exact heapGrows_store_fresh
    (heapGrows_trans (heapGrows_alloc h _) (heapGrows_alloc _ _))
    _ (heapGrows_alloc h _).1 _

/-- The heap-model motion loader preserves all pre-existing frames. -/
theorem heapGrows_loadMotionH (ft : FitTransform) (h : Heap) (r : Nat)
    (motion : String) (p : ℚ) {hr : Heap × Nat}
    (hok : loadMotionH ft h r motion p = .ok hr) : heapGrows h hr.1 := by
  unfold loadMotionH at hok
  dsimp only at hok
  cases hc : checkParams (h.read r) (addSuffix motionBaseParams motion) with
  | error e => rw [hc] at hok; exact absurd hok (by simp)
  | ok u =>
    rw [hc] at hok
    dsimp only at hok
    by_cases hp : p > 0 ∧ p < 1
    · rw [if_pos hp] at hok
      have hpair := Except.ok.inj hok
      rw [← congrArg Prod.fst hpair]
      exact heapGrows_trans (heapGrows_alloc h _) (heapGrows_pcaMotionH ft _ _ p)
    · rw [if_neg hp] at hok
      have hpair := Except.ok.inj hok
      rw [← congrArg Prod.fst hpair]
      exact heapGrows_alloc h _

/-- The heap-model high-pass loader preserves all pre-existing frames. -/
theorem heapGrows_loadHighPassH (h : Heap) (r : Nat) {hr : Heap × Nat}
    (hok : loadHighPassH h r = .ok hr) : heapGrows h hr.1 := by
  unfold loadHighPassH at hok
  cases hc : findConfounds (h.read r) (.pylist ["cosine"]) with
  | error e => rw [hc] at hok; exact absurd hok (by simp)
  | ok ps =>
    rw [hc] at hok
    have hpair := Except.ok.inj hok
    rw [← congrArg Prod.fst hpair]
    exact heapGrows_alloc h _

/-- The heap-model tissue loader preserves all pre-existing frames. -/
theorem heapGrows_loadWmCsfH (h : Heap) (r : Nat) (w : String)
    {hr : Heap × Nat} (hok : loadWmCsfH h r w = .ok hr) : heapGrows h hr.1 := by
  unfold loadWmCsfH at hok
  dsimp only at hok
  cases hc : checkParams (h.read r) (addSuffix ["csf", "white_matter"] w) with
  | error e => rw [hc] at hok; exact absurd hok (by simp)
  | ok u =>
    rw [hc] at hok
    have hpair := Except.ok.inj hok
    rw [← congrArg Prod.fst hpair]
    exact heapGrows_alloc h _

/-- The heap-model global-signal loader preserves all pre-existing frames. -/
theorem heapGrows_loadGlobalH (h : Heap) (r : Nat) (g : String)
    {hr : Heap × Nat} (hok : loadGlobalH h r g = .ok hr) : heapGrows h hr.1 := by
  unfold loadGlobalH at hok
  dsimp only at hok
  cases hc : checkParams (h.read r) (addSuffix ["global_signal"] g) with
  | error e => rw [hc] at hok; exact absurd hok (by simp)
  | ok u =>
    rw [hc] at hok
    have hpair := Except.ok.inj hok
    rw [← congrArg Prod.fst hpair]
    exact heapGrows_alloc h _

/-- A heap-model strategy block preserves all pre-existing frames whenever
its loader does. -/
theorem heapGrows_appendIfH (strat : List String) (name : String)
    (loader : Heap → Except Err (Heap × Nat))
    (hl : ∀ (hh : Heap) (hr : Heap × Nat), loader hh = .ok hr → heapGrows hh hr.1)
    (h : Heap) (rc : Nat) {hr' : Heap × Nat}
    (hok : appendIfH strat name loader h rc = .ok hr') : heapGrows h hr'.1 := by
  unfold appendIfH at hok
  by_cases hn : strat.contains name = true
  · rw [if_pos hn] at hok
    cases hc : loader h with
    | error e => rw [hc] at hok; exact absurd hok (by simp)
    | ok hr =>
      rw [hc] at hok
      have hpair := Except.ok.inj hok
      rw [← congrArg Prod.fst hpair]
      exact heapGrows_trans (hl h hr hc) (heapGrows_alloc _ _)
  · rw [if_neg hn] at hok
    have hpair := Except.ok.inj hok
    rw [← congrArg Prod.fst hpair]
    exact heapGrows_refl h

/-- The heap-model `_load_confounds_single` preserves all frames that
existed before the call. -/
theorem heapGrows_loadConfoundsSingleH (ft : FitTransform) (h : Heap)
    (r : Nat) (s : StrategyArg) (motion : String) (p : ℚ) (w g : String)
    {hr' : Heap × Nat}
    (hok : loadConfoundsSingleH ft h r s motion p w g = .ok hr') :
    heapGrows h hr'.1 := by
  unfold loadConfoundsSingleH at hok
  cases hs : sanitizeStrategy s with
  | error e => rw [hs] at hok; exact absurd hok (by simp)
  | ok strat =>
    rw [hs] at hok
    dsimp only at hok
    cases h1 : appendIfH strat "motion" (fun hh => loadMotionH ft hh r motion p)
        (h.alloc DF.empty).1 (h.alloc DF.empty).2 with
    | error e => rw [h1] at hok; exact absurd hok (by simp)
    | ok hr1 =>
      rw [h1] at hok
      dsimp only at hok
      cases h2 : appendIfH strat "high_pass" (fun hh => loadHighPassH hh r)
          hr1.1 hr1.2 with
      | error e => rw [h2] at hok; exact absurd hok (by simp)
      | ok hr2 =>
        rw [h2] at hok
        dsimp only at hok
        cases h3 : appendIfH strat "wm_csf" (fun hh => loadWmCsfH hh r w)
            hr2.1 hr2.2 with
        | error e => rw [h3] at hok; exact absurd hok (by simp)
        | ok hr3 =>
          rw [h3] at hok
          dsimp only at hok
          have g1 : heapGrows h (h.alloc DF.empty).1 := heapGrows_alloc h _
          have g2 : heapGrows (h.alloc DF.empty).1 hr1.1 :=
            heapGrows_appendIfH strat "motion" _
              (fun hh hr hk => heapGrows_loadMotionH ft hh r motion p hk) _ _ h1
          have g3 : heapGrows hr1.1 hr2.1 :=
            heapGrows_appendIfH strat "high_pass" _
              (fun hh hr hk => heapGrows_loadHighPassH hh r hk) _ _ h2
          have g4 : heapGrows hr2.1 hr3.1 :=
            heapGrows_appendIfH strat "wm_csf" _
              (fun hh hr hk => heapGrows_loadWmCsfH hh r w hk) _ _ h3
          have g5 : heapGrows hr3.1 hr'.1 :=
            heapGrows_appendIfH strat "global" _
              (fun hh hr hk => heapGrows_loadGlobalH hh r g hk) _ _ hok
          exact heapGrows_trans g1 (heapGrows_trans g2
            (heapGrows_trans g3 (heapGrows_trans g4 g5)))

/-- Claim C9: the raw confounds table passed in is never mutated: in the
store-passing model of `_load_confounds_single` — where every pandas call
that builds a frame allocates a fresh one and the single in-place column
assignment of `_pca_motion` targets the freshly built component frame —
every frame that existed before the call, in particular the input table at
`r`, reads back unchanged afterwards; all outputs live in freshly allocated
frames. -/
theorem claim_C9 (ft : FitTransform) (h : Heap) (r : Nat) (s : StrategyArg)
    (motion : String) (p : ℚ) (w g : String) (i : Nat)
    (hi : i < h.frames.length) :
    (resultHeap (loadConfoundsSingleH ft h r s motion p w g) h).read i =
      h.read i := by
  cases hok : loadConfoundsSingleH ft h r s motion p w g with
  | error e => rfl
  | ok hr =>
    simp only [resultHeap]
    exact (heapGrows_loadConfoundsSingleH ft h r s motion p w g hok).2 i hi

/-- Witness for claim C9: a one-frame heap holding a concrete table, run
under the "minimal" strategy; the input frame reads back unchanged. -/
theorem claim_C9_witness :
    (resultHeap (loadConfoundsSingleH ft0 ⟨[dfAll]⟩ 0 (.ofString "minimal")
        "basic" 1 "basic" "basic") ⟨[dfAll]⟩).read 0 = Heap.read ⟨[dfAll]⟩ 0 :=
  claim_C9 ft0 ⟨[dfAll]⟩ 0 (.ofString "minimal") "basic" 1 "basic" "basic" 0
    (by decide)
